import Mathlib

/-!
Shallow embedding of `src/static/loading/js/lib/thorax.loading.js`.

The file models the four coupled mechanisms of the source:

* `Loading` — the debounced `load:start` / `load:end` aggregator built by
  `Thorax.loadHandler` (source lines 26–97), embedded as a deterministic
  discrete-event simulator: external events carry millisecond timestamps,
  `setTimeout` / `clearTimeout` become an explicit timer queue, and the
  `start` / `end` UI callbacks become entries of an output trace.
* `Fetching` — the per-object fetch queue `fetchQueue` / `flushQueue`
  (lines 205–244) and the `fetch` override installed on
  `Thorax.Model` / `Thorax.Collection` (lines 252–264).  JavaScript array
  identity matters here (a queue closure captures the array object), so
  queue arrays live in an explicit heap indexed by allocation order.
* `Routing` — `bindToRoute` (lines 154–187) and the way `loadData`
  (lines 189–203) wires its failure callback.
* `Syncing` — `Thorax.sync` (lines 137–152) and the abort-on-navigation
  wrapper inside `load` (lines 266–293).
-/

namespace Loading

/-- Time in milliseconds.  The source works in seconds and multiplies by
1000 before calling `setTimeout`, so the default delays 0.33 s and 0.10 s
become the integers 330 and 100. -/
abbrev Time := Nat

/-- Default `_loadingTimeoutDuration` (0.33 s, line 321) in milliseconds. -/
def loadingTimeoutMs : Time := 330

/-- Default `_loadingTimeoutEndDuration` (0.10 s, line 322) in milliseconds. -/
def loadingEndTimeoutMs : Time := 100

/-- The two kinds of timers the handler arms: the start-debounce timer set
by `startLoadTimeout` (lines 30–37) and the end-debounce timer set inside
`endCallback` (line 79). -/
inductive TimerKind
  | startT
  | endT
deriving DecidableEq, Repr

/-- One pending `setTimeout`: its handle, its absolute fire time and which
closure it runs.  Handles are allocated in increasing order, which also
gives the tie-break order of the event loop for equal deadlines. -/
structure Timer where
  id : Nat
  fire : Time
  kind : TimerKind
deriving DecidableEq, Repr

/-- The `self._loadStart` record (lines 46–51) plus the `run` flag set by
the start timer (line 33) and the `endTimeout` handle (line 79).  In the
source `timeout` is initialised to `0` and `run` / `endTimeout` start out
absent; since browser timer handles are never 0, the initial `timeout: 0`
is modelled as `none`.  `epoch` is a ghost field numbering successive
signals so that the trace can speak about one load episode; it has no
counterpart in the source and influences no branch. -/
structure Signal where
  events : List Nat
  timeout : Option Nat
  endTimeout : Option Nat
  run : Bool
  message : Nat
  background : Bool
  epoch : Nat
deriving DecidableEq, Repr

/-- The whole mutable world of one object observed by one handler:
`self._loadStart`, the pending timers of the event loop, the allocator for
timer handles, the ghost episode counter and the current clock. -/
structure LHState where
  signal : Option Signal
  timers : List Timer
  nextId : Nat
  nextEpoch : Nat
  now : Time
deriving DecidableEq, Repr

/-- Invocations of the two UI callbacks handed to `Thorax.loadHandler`,
tagged with the episode they belong to. -/
inductive Emit
  | onStart (epoch : Nat) (message : Nat) (background : Bool)
  | onEnd (epoch : Nat) (background : Bool)
deriving DecidableEq, Repr

/-- `clearTimeout(h)`: remove the timer with handle `h` from the queue;
clearing an absent or already-fired handle is a no-op. -/
def clearTimeout (h : Option Nat) (ts : List Timer) : List Timer :=
  match h with
  | none => ts
  | some i => ts.filter (fun t => t.id ≠ i)

/-- `startLoadTimeout` (lines 30–37): clear the signal start timer and arm
a fresh one `delay` milliseconds from now, storing the new handle in
`timeout`. -/
def startLoadTimeout (delay : Time) (sig : Signal) (s : LHState) :
    Signal × LHState :=
  ({ sig with timeout := some s.nextId },
   { s with
       timers := clearTimeout sig.timeout s.timers ++
                   [⟨s.nextId, s.now + delay, .startT⟩],
       nextId := s.nextId + 1 })

/-- The handler returned by `Thorax.loadHandler` reacting to one
`load:start(message, background, object)` (lines 27–63).  With no signal
present a fresh one is created and the start timer armed for the full
`loadingTimeout` delay; with a signal present the armed end timer is
cleared, the message overwritten and — only when a non-background call
joins a background signal — the background flag dropped and the start
timer re-armed.  In that re-arm the hoisted `var loadingTimeout` of the
source was never assigned (it is set only in the no-signal branch), so
`setTimeout` receives `undefined * 1000 = NaN`, which the platform treats
as delay 0; the model uses delay 0 there.  Both branches finish by pushing
`object` onto `events` (line 63); the `object.bind(loadEnd, endCallback)`
of line 64 is represented by `handleEnd` below. -/
def handleStart (message : Nat) (background : Bool) (src : Nat)
    (s : LHState) : LHState :=
  match s.signal with
  | none =>
      let sig : Signal :=
        { events := [], timeout := none, endTimeout := none, run := false,
          message := message, background := background, epoch := s.nextEpoch }
      let p := startLoadTimeout loadingTimeoutMs sig
        { s with nextEpoch := s.nextEpoch + 1 }
      { p.2 with signal := some { p.1 with events := p.1.events ++ [src] } }
  | some sig =>
      let s1 := { s with timers := clearTimeout sig.endTimeout s.timers }
      let sig1 := { sig with message := message }
      let p :=
        if !background && sig1.background then
          startLoadTimeout 0 { sig1 with background := false } s1
        else (sig1, s1)
      { p.2 with signal := some { p.1 with events := p.1.events ++ [src] } }

/-- Triggering `load:end` on `src` runs every `endCallback` (lines 64–95)
currently bound for `src`.  Each start call binds exactly one such one-shot
callback and each run removes one occurrence of `src` from `events`, so the
number of bound callbacks always equals the number of occurrences of `src`
in `events`; the net effect of one trigger is therefore to drop all
occurrences of `src` and, when the list becomes empty, to arm the
end-debounce timer for `loadingEndTimeout` (line 79).  With no occurrence
(hence no bound callback) the trigger is a no-op. -/
def handleEnd (src : Nat) (s : LHState) : LHState :=
  match s.signal with
  | none => s
  | some sig =>
      if src ∈ sig.events then
        let events := sig.events.filter (fun x => x ≠ src)
        if events.isEmpty then
          { s with
              signal := some { sig with events := events,
                                        endTimeout := some s.nextId },
              timers := s.timers ++
                [⟨s.nextId, s.now + loadingEndTimeoutMs, .endT⟩],
              nextId := s.nextId + 1 }
        else
          { s with signal := some { sig with events := events } }
      else s

/-- Run the closure of a fired timer.  The start-timer action (lines 32–35)
sets `run` and calls the `start` callback with the current message and
background flag.  The end-timer action (lines 80–92) acts only when
`events` is still empty: it calls the `end` callback provided a start was
actually shown (`run`), clears any armed start timer and discards the
signal.  Both closures read `self._loadStart` at fire time; an armed timer
never outlives its signal (it is cleared before every discard or re-arm),
and the `events` array captured by the end closure is the very array of
the current signal, so reading the current signal is faithful.  The
`self._loadStart.trigger(loadEnd, ...)` of line 86 notifies forwarded
listeners of the signal object itself and is not part of any claim, so it
is not recorded in the trace. -/
def fireTimer (k : TimerKind) (s : LHState) : LHState × List Emit :=
  match s.signal with
  | none => (s, [])
  | some sig =>
      match k with
      | .startT =>
          ({ s with signal := some { sig with run := true } },
           [.onStart sig.epoch sig.message sig.background])
      | .endT =>
          if sig.events.isEmpty then
            ({ s with signal := none,
                      timers := clearTimeout sig.timeout s.timers },
             if sig.run then [.onEnd sig.epoch sig.background] else [])
          else (s, [])

/-- Pick the next timer the event loop would run: smallest fire time,
ties broken by handle allocation order. -/
def timerLE (a b : Timer) : Bool :=
  a.fire < b.fire || (a.fire = b.fire && a.id ≤ b.id)

/-- Minimum of a timer list under `timerLE` (`none` on the empty list). -/
def pickMin : List Timer → Option Timer
  | [] => none
  | t :: ts =>
      match pickMin ts with
      | none => some t
      | some u => if timerLE t u then some t else some u

/-- Fire, in event-loop order, every pending timer whose deadline is at or
before `t`.  `fuel` bounds the recursion; firing a timer never arms a new
one, so the length of the timer queue is a valid bound. -/
def runDue (fuel : Nat) (t : Time) (s : LHState) : LHState × List Emit :=
  match fuel with
  | 0 => (s, [])
  | fuel + 1 =>
      match pickMin (s.timers.filter (fun tm => tm.fire ≤ t)) with
      | none => (s, [])
      | some tm =>
          let p := fireTimer tm.kind
            { s with timers := s.timers.filter (fun x => x.id ≠ tm.id) }
          let q := runDue fuel t p.1
          (q.1, p.2 ++ q.2)

/-- External stimuli: a `load:start(message, background, object)` trigger
or a `load:end` trigger on a source object. -/
inductive LEvent
  | start (message : Nat) (background : Bool) (src : Nat)
  | endE (src : Nat)
deriving DecidableEq, Repr

/-- Deliver one timestamped external event: advance the clock (never
backwards), fire every timer that became due, then run the handler. -/
def processEvent (ev : Time × LEvent) (s : LHState) : LHState × List Emit :=
  let t := max s.now ev.1
  let p := runDue s.timers.length t { s with now := t }
  match ev.2 with
  | .start m b src => (handleStart m b src p.1, p.2)
  | .endE src => (handleEnd src p.1, p.2)

/-- Deliver a list of timestamped external events in order. -/
def runEvents (evs : List (Time × LEvent)) (s : LHState) :
    LHState × List Emit :=
  match evs with
  | [] => (s, [])
  | e :: rest =>
      let p := processEvent e s
      let q := runEvents rest p.1
      (q.1, p.2 ++ q.2)

/-- Let the event loop run to quiescence: fire every remaining timer in
event-loop order. -/
def drain (fuel : Nat) (s : LHState) : LHState × List Emit :=
  match fuel with
  | 0 => (s, [])
  | fuel + 1 =>
      match pickMin s.timers with
      | none => (s, [])
      | some tm =>
          let p := fireTimer tm.kind
            { s with timers := s.timers.filter (fun x => x.id ≠ tm.id) }
          let q := drain fuel p.1
          (q.1, p.2 ++ q.2)

/-- The pristine object: no `_loadStart`, no pending timers. -/
def init : LHState :=
  { signal := none, timers := [], nextId := 0, nextEpoch := 0, now := 0 }

/-- Full run of a handler built by `Thorax.loadHandler`: deliver the
events, then let all timers fire. -/
def runLoad (evs : List (Time × LEvent)) : LHState × List Emit :=
  let p := runEvents evs init
  let q := drain p.1.timers.length p.1
  (q.1, p.2 ++ q.2)

/-- The callback trace of a full run. -/
def loadTrace (evs : List (Time × LEvent)) : List Emit :=
  (runLoad evs).2

/-- Number of `onEnd` invocations recorded for episode `e`. -/
def countEnd (e : Nat) (tr : List Emit) : Nat :=
  (tr.filter (fun x =>
    match x with
    | .onEnd e' _ => e' == e
    | _ => false)).length

/-- Episode `e` has a recorded `onStart` invocation. -/
def hasStart (e : Nat) (tr : List Emit) : Prop :=
  ∃ m b, Emit.onStart e m b ∈ tr

/-- The episode bookkeeping invariant tying a reachable state to the trace
produced so far: the live signal (if any) carries an epoch below the
allocator; an `onEnd` belongs to an already-closed episode, so never to the
live signal and never to a future one; each episode records at most one
`onEnd`; a live signal with `run` set has its `onStart` on record; and
every recorded `onEnd` has a matching `onStart` for its episode. -/
structure Inv (s : LHState) (tr : List Emit) : Prop where
  epochLt : ∀ sig, s.signal = some sig → sig.epoch < s.nextEpoch
  endClosed : ∀ e b, Emit.onEnd e b ∈ tr →
      e < s.nextEpoch ∧ ∀ sig, s.signal = some sig → e ≠ sig.epoch
  endOnce : ∀ e, countEnd e tr ≤ 1
  runStart : ∀ sig, s.signal = some sig → sig.run = true →
      hasStart sig.epoch tr
  endStart : ∀ e b, Emit.onEnd e b ∈ tr → hasStart e tr

end Loading

namespace Fetching

/-- The three callback slots of a fetch options object. -/
inductive Handler
  | success
  | error
  | complete
deriving DecidableEq, Repr

/-- One fetch options object as `fetchQueue` stores it: which of the three
callbacks the caller supplied (`caller` is a ghost tag identifying whose
callbacks they are), the `resetQueue` and `background` flags, and whether
`complete` has been wrapped by the `fetch` override of lines 258–261 to
also emit `load:end`. -/
structure Opts where
  caller : Nat
  hasSuccess : Bool
  hasError : Bool
  hasComplete : Bool
  resetQueue : Bool
  background : Bool
  wrapped : Bool
deriving DecidableEq, Repr

/-- The fetch-queue side of one data object.  A queue is a JavaScript
array whose identity matters (the `flushQueue` closures capture the array,
and line 240 compares `self.fetchQueue === fetchQueue`), so arrays live in
a heap `arrays` indexed by allocation order and `current` holds the index
of the array currently stored in `this.fetchQueue` (or `none` for
`undefined`).  `transport` lists, in order, the queue for which each
underlying `$super` fetch was issued. -/
structure FQState where
  current : Option Nat
  arrays : Nat → List Opts
  nextArr : Nat
  transport : List Nat

/-- Observable actions of the fetch layer: the synchronous `load:start` of
line 262, an underlying transport fetch being issued (line 220), a stored
caller callback being invoked by `flushQueue`, and the `load:end` of
line 260. -/
inductive FQEv
  | loadStart (background : Bool)
  | transportIssue (qid : Nat)
  | callCb (caller : Nat) (h : Handler) (args : Nat)
  | loadEnd
deriving DecidableEq, Repr

/-- `fetchQueue(options, $super)` (lines 205–225): a `resetQueue` call
first discards the current queue; with no queue active this call starts
one holding only itself and issues the single underlying fetch (whose
handlers are the `flushQueue` closures for the new array, see
`transportComplete`); with a queue active the options are appended and no
transport call is made. -/
def fetchQueueCall (options : Opts) (s : FQState) : FQState × List FQEv :=
  let s := if options.resetQueue then { s with current := none } else s
  match s.current with
  | none =>
      let qid := s.nextArr
      ({ s with
           current := some qid,
           arrays := fun i => if i = qid then [options] else s.arrays i,
           nextArr := qid + 1,
           transport := s.transport ++ [qid] },
       [.transportIssue qid])
  | some qid =>
      ({ s with
           arrays := fun i =>
             if i = qid then s.arrays qid ++ [options] else s.arrays i },
       [])

/-- The callback invocations one stored options entry contributes when
`flushQueue` replays handler `h` with arguments `args` (lines 233–237).
For `success` and `error` the stored callback runs iff the caller supplied
one.  A `wrapped` entry always has a `complete` (the wrapper installed by
the `fetch` override), which runs the original `complete` if supplied and
then emits `load:end`. -/
def entryCalls (o : Opts) (h : Handler) (args : Nat) : List FQEv :=
  match h with
  | .success => if o.hasSuccess then [.callCb o.caller .success args] else []
  | .error => if o.hasError then [.callCb o.caller .error args] else []
  | .complete =>
      if o.wrapped then
        (if o.hasComplete then [.callCb o.caller .complete args] else []) ++
          [.loadEnd]
      else if o.hasComplete then [.callCb o.caller .complete args] else []

/-- The closure `flushQueue(self, fetchQueue, handler)` returns
(lines 227–244): replay `handler` of every queued entry, in queue order,
with the arguments of the one underlying fetch, then reset
`self.fetchQueue` iff it is still the captured array. -/
def flushQueue (qid : Nat) (h : Handler) (args : Nat) (s : FQState) :
    FQState × List FQEv :=
  let calls := (s.arrays qid).flatMap (fun o => entryCalls o h args)
  (if s.current = some qid then { s with current := none } else s, calls)

/-- The underlying transport finishing: per the external fetch interface,
the request invokes the `success` (when `ok`) or `error` option and then
`complete`, each of which is the corresponding `flushQueue` closure that
`fetchQueue` installed for the issuing array. -/
def transportComplete (qid : Nat) (ok : Bool) (args : Nat) (s : FQState) :
    FQState × List FQEv :=
  let p := flushQueue qid (if ok then .success else .error) args s
  let q := flushQueue qid .complete args p.1
  (q.1, p.2 ++ q.2)

/-- The `fetch` override installed on `Thorax.Model` / `Thorax.Collection`
(lines 252–264): wrap `complete` so that, after the original `complete`,
the object emits `load:end`; trigger `load:start` synchronously with the
`background` flag of the options; then delegate to `fetchQueue`. -/
def thoraxFetch (options : Opts) (s : FQState) : FQState × List FQEv :=
  let p := fetchQueueCall { options with wrapped := true } s
  (p.1, .loadStart options.background :: p.2)

/-- Number of `load:start` events in a fetch-layer action list. -/
def countLoadStart (es : List FQEv) : Nat :=
  (es.filter (fun e =>
    match e with
    | .loadStart _ => true
    | _ => false)).length

/-- Number of `load:end` events in a fetch-layer action list. -/
def countLoadEnd (es : List FQEv) : Nat :=
  (es.filter (fun e =>
    match e with
    | .loadEnd => true
    | _ => false)).length

end Fetching

namespace Routing

/-- The closure state of one `bindToRoute(callback, failback)` invocation
(lines 154–187): the navigation fragment captured at wrap time, the
`completed` flag, and whether `resetLoader` is still bound to the global
`route` notification. -/
structure Guard where
  fragment : Nat
  completed : Bool
  subscribed : Bool
deriving DecidableEq, Repr

/-- A run of one of the two wrapped callbacks, with the pass-through
arguments (`Array.prototype.slice.call(arguments, 1)`, line 175). -/
inductive GCall
  | success (args : List Nat)
  | failback (args : List Nat)
deriving DecidableEq, Repr

/-- `bindToRoute` wrap time: capture the current fragment and subscribe
`resetLoader` to the `route` notification (lines 155, 183–184). -/
def bindToRoute (curFragment : Nat) : Guard :=
  { fragment := curFragment, completed := false, subscribed := true }

/-- `finalizer(isCanceled, ...)` (lines 158–181).  `hasFailback` records
whether a failback was supplied (line 179 runs it only then);
`curFragment` is what `Backbone.history.getFragment()` returns at
resolution time. -/
def finalizer (hasFailback isCanceled : Bool) (curFragment : Nat)
    (args : List Nat) (g : Guard) : Guard × Option GCall :=
  let same := g.fragment == curFragment
  if g.completed then (g, none)
  else if isCanceled && same then (g, none)
  else
    ({ g with completed := true, subscribed := false },
     if !isCanceled && same then some (.success args)
     else if hasFailback then some (.failback args) else none)

/-- A sequence of finalizer invocations: the `route` notification invokes
it with `isCanceled = true` (via `resetLoader`, line 183) and the returned
trigger with `isCanceled = false` (line 186); each sees the fragment
current at that moment. -/
def runGuard (hasFailback : Bool) (g : Guard) :
    List (Bool × Nat × List Nat) → Guard × List GCall
  | [] => (g, [])
  | (c, f, a) :: rest =>
      let p := finalizer hasFailback c f a g
      let q := runGuard hasFailback p.1 rest
      (q.1, p.2.toList ++ q.2)

/-- A callback run as the user-supplied `failback` of `loadData` sees it:
either the success callback or the failback with its `isError` flag. -/
inductive LDCall
  | success (args : List Nat)
  | failback (isError : Bool) (args : List Nat)
deriving DecidableEq, Repr

/-- How `loadData` (lines 199–201) maps a guard callback onto the user
callbacks: the guard failure path is `_.bind(failback, this, false)`, so
every finalizer-dispatched failback carries `isError = false`. -/
def loadDataCall : GCall → LDCall
  | .success a => .success a
  | .failback a => .failback false a

/-- The three ways a `loadData` fetch resolves: the global `route`
notification fires, the transport succeeds (Backbone invokes the
`success` option, which is the guard trigger), or the transport errors
(Backbone invokes the `error` option). -/
inductive Resolution
  | routeFired (cur : Nat) (args : List Nat)
  | fetchSuccess (cur : Nat) (args : List Nat)
  | fetchError (args : List Nat)
deriving DecidableEq, Repr

/-- One resolution step of `loadData` (lines 189–203): route firings and
transport success go through the guard finalizer (with `isCanceled` true
and false respectively); a transport error calls
`_.bind(failback, this, true)` directly, bypassing the guard. -/
def loadDataStep (hasFailback : Bool) (g : Guard) :
    Resolution → Guard × Option LDCall
  | .routeFired cur a =>
      let p := finalizer hasFailback true cur a g
      (p.1, p.2.map loadDataCall)
  | .fetchSuccess cur a =>
      let p := finalizer hasFailback false cur a g
      (p.1, p.2.map loadDataCall)
  | .fetchError a =>
      (g, if hasFailback then some (.failback true a) else none)

end Routing

namespace Syncing

/-- The transport-facing fields `Thorax.sync` maintains on a data object
(lines 137–152): the in-flight request handle and the `_aborted` flag. -/
structure DataObj where
  request : Option Nat
  aborted : Bool
deriving DecidableEq, Repr

/-- `Thorax.sync` issuing a request (line 147): store the handle returned
by `Backbone.sync`. -/
def thoraxSync (reqId : Nat) (o : DataObj) : DataObj :=
  { o with request := some reqId }

/-- The `complete` wrapper `Thorax.sync` installs (lines 141–146): clear
the handle and the `_aborted` flag once the transport finishes. -/
def syncComplete (o : DataObj) : DataObj :=
  { o with request := none, aborted := false }

/-- The failure wrapper `load` hands to `loadData` (lines 281–291): on a
navigation cancellation (`isError` false) abort any outstanding request
and set `_aborted`; then run the user failback (when supplied) with the
same arguments.  Returns the new object state, whether `abort()` was
called on the request handle, and the failback invocation. -/
def loadFailWrapper (hasFailback isError : Bool) (o : DataObj) :
    DataObj × Bool × Option Bool :=
  let p :=
    if !isError then
      match o.request with
      | some _ => ({ o with aborted := true }, true)
      | none => (o, false)
    else (o, false)
  (p.1, p.2, if hasFailback then some isError else none)

end Syncing

namespace LoadEntry

/-- Top-level actions of `loadData` (lines 189–203) and `load`
(lines 266–293), in execution order. -/
inductive LoadAct
  | callbackNow
  | guardCreated
  | fetchCalled
  | forwardRegistered
deriving DecidableEq, Repr

/-- `loadData(callback, failback, options)` (lines 189–203) on top of the
fetch layer: a populated object runs `callback(this)` synchronously and
returns at once; otherwise a route guard is created for the success slot
and `this.fetch` — the override modelled by `Fetching.thoraxFetch` — is
invoked. -/
def loadData (populated : Bool) (o : Fetching.Opts) (s : Fetching.FQState) :
    Fetching.FQState × List Fetching.FQEv × List LoadAct :=
  if populated then (s, [], [.callbackNow])
  else
    let p := Fetching.thoraxFetch o s
    (p.1, p.2, [.guardCreated, .fetchCalled])

/-- `load(callback, failback, options)` (lines 266–293): for a
non-background call on an unpopulated object, first forward load events to
the global scope; then delegate to `loadData` with the abort-on-cancel
failure wrapper. -/
def load (populated : Bool) (o : Fetching.Opts) (s : Fetching.FQState) :
    Fetching.FQState × List Fetching.FQEv × List LoadAct :=
  let p := loadData populated o s
  (p.1, p.2.1,
   (if !o.background && !populated then [.forwardRegistered] else []) ++ p.2.2)

end LoadEntry

namespace Loading

theorem countEnd_append (e : Nat) (tr tr' : List Emit) :
    countEnd e (tr ++ tr') = countEnd e tr + countEnd e tr' := by
  simp [countEnd, List.filter_append]

theorem countEnd_onStart (e e' m : Nat) (b : Bool) :
    countEnd e [Emit.onStart e' m b] = 0 := rfl

theorem countEnd_onEnd_self (e : Nat) (b : Bool) :
    countEnd e [Emit.onEnd e b] = 1 := by
  simp [countEnd]

theorem countEnd_onEnd_ne (e e' : Nat) (b : Bool) (h : e' ≠ e) :
    countEnd e [Emit.onEnd e' b] = 0 := by
  simp [countEnd, h]

theorem countEnd_eq_zero (e : Nat) (tr : List Emit)
    (h : ∀ b, Emit.onEnd e b ∉ tr) : countEnd e tr = 0 := by
  simp only [countEnd, List.length_eq_zero, List.filter_eq_nil_iff]
  intro x hx
  cases x with
  | onStart e' m b => simp
  | onEnd e' b =>
      simp only [Bool.not_eq_true, beq_eq_false_iff_ne, ne_eq]
      intro he
      exact h b (he ▸ hx)

theorem hasStart_append_left (e : Nat) (tr tr' : List Emit)
    (h : hasStart e tr) : hasStart e (tr ++ tr') := by
  obtain ⟨m, b, hm⟩ := h
  exact ⟨m, b, List.mem_append_left _ hm⟩

theorem hasStart_append_right (e : Nat) (tr tr' : List Emit)
    (h : hasStart e tr') : hasStart e (tr ++ tr') := by
  obtain ⟨m, b, hm⟩ := h
  exact ⟨m, b, List.mem_append_right _ hm⟩

theorem Inv.setTimers {s : LHState} {tr : List Emit} (h : Inv s tr)
    (ts : List Timer) : Inv { s with timers := ts } tr :=
  ⟨h.epochLt, h.endClosed, h.endOnce, h.runStart, h.endStart⟩

theorem Inv.setNow {s : LHState} {tr : List Emit} (h : Inv s tr)
    (t : Time) : Inv { s with now := t } tr :=
  ⟨h.epochLt, h.endClosed, h.endOnce, h.runStart, h.endStart⟩

theorem inv_init : Inv init [] := by
  refine ⟨?_, ?_, ?_, ?_, ?_⟩
  · intro sig h
    simp [init] at h
  · intro e b h
    simp at h
  · intro e
    simp [countEnd]
  · intro sig h
    simp [init] at h
  · intro e b h
    simp at h

theorem inv_handleStart (m : Nat) (b : Bool) (src : Nat) {s : LHState}
    {tr : List Emit} (h : Inv s tr) : Inv (handleStart m b src s) tr := by
  cases hs : s.signal with
  | none =>
      have hres : handleStart m b src s =
          { s with
              signal := some
                { events := [src], timeout := some s.nextId,
                  endTimeout := none, run := false, message := m,
                  background := b, epoch := s.nextEpoch },
              timers := s.timers ++
                [⟨s.nextId, s.now + loadingTimeoutMs, .startT⟩],
              nextId := s.nextId + 1,
              nextEpoch := s.nextEpoch + 1 } := by
        simp [handleStart, hs, startLoadTimeout, clearTimeout]
      rw [hres]
      refine ⟨?_, ?_, h.endOnce, ?_, h.endStart⟩
      · intro sig hsig
        cases hsig
        simp
      · intro e b' hmem
        obtain ⟨hlt, -⟩ := h.endClosed e b' hmem
        refine ⟨by show e < s.nextEpoch + 1; omega, ?_⟩
        intro sig hsig
        cases hsig
        simp
        omega
      · intro sig hsig hrun
        cases hsig
        simp at hrun
  | some sig =>
      have key : (handleStart m b src s).nextEpoch = s.nextEpoch ∧
          ∃ sig', (handleStart m b src s).signal = some sig' ∧
            sig'.epoch = sig.epoch ∧ sig'.run = sig.run := by
        simp only [handleStart, hs]
        split
        · simp [startLoadTimeout]
        · simp
      obtain ⟨hne, sig', hsig', hep, hrun⟩ := key
      refine ⟨?_, ?_, h.endOnce, ?_, h.endStart⟩
      · intro sg hsg
        rw [hsig'] at hsg
        cases hsg
        rw [hep, hne]
        exact h.epochLt sig hs
      · intro e b' hmem
        obtain ⟨hlt, -⟩ := h.endClosed e b' hmem
        refine ⟨by rw [hne]; exact hlt, ?_⟩
        intro sg hsg
        rw [hsig'] at hsg
        cases hsg
        rw [hep]
        exact (h.endClosed e b' hmem).2 sig hs
      · intro sg hsg hr
        rw [hsig'] at hsg
        cases hsg
        rw [hep]
        exact h.runStart sig hs (hrun ▸ hr)

theorem inv_handleEnd (src : Nat) {s : LHState} {tr : List Emit}
    (h : Inv s tr) : Inv (handleEnd src s) tr := by
  cases hs : s.signal with
  | none =>
      simp only [handleEnd, hs]
      exact h
  | some sig =>
      have key : (handleEnd src s).nextEpoch = s.nextEpoch ∧
          ((handleEnd src s).signal = s.signal ∨
            ∃ sig', (handleEnd src s).signal = some sig' ∧
              sig'.epoch = sig.epoch ∧ sig'.run = sig.run) := by
        simp only [handleEnd, hs]
        split
        · split
          · exact ⟨rfl, Or.inr ⟨_, rfl, rfl, rfl⟩⟩
          · exact ⟨rfl, Or.inr ⟨_, rfl, rfl, rfl⟩⟩
        · exact ⟨rfl, Or.inl (by simp [hs])⟩
      obtain ⟨hne, hcase⟩ := key
      cases hcase with
      | inl heq =>
          refine ⟨?_, ?_, h.endOnce, ?_, h.endStart⟩
          · intro sg hsg
            rw [heq] at hsg
            rw [hne]
            exact h.epochLt sg hsg
          · intro e b' hmem
            refine ⟨by rw [hne]; exact (h.endClosed e b' hmem).1, ?_⟩
            intro sg hsg
            rw [heq] at hsg
            exact (h.endClosed e b' hmem).2 sg hsg
          · intro sg hsg hr
            rw [heq] at hsg
            exact h.runStart sg hsg hr
      | inr hex =>
          obtain ⟨sig', hsig', hep, hrun⟩ := hex
          refine ⟨?_, ?_, h.endOnce, ?_, h.endStart⟩
          · intro sg hsg
            rw [hsig'] at hsg
            cases hsg
            rw [hep, hne]
            exact h.epochLt sig hs
          · intro e b' hmem
            refine ⟨by rw [hne]; exact (h.endClosed e b' hmem).1, ?_⟩
            intro sg hsg
            rw [hsig'] at hsg
            cases hsg
            rw [hep]
            exact (h.endClosed e b' hmem).2 sig hs
          · intro sg hsg hr
            rw [hsig'] at hsg
            cases hsg
            rw [hep]
            exact h.runStart sig hs (hrun ▸ hr)

theorem inv_fireTimer (k : TimerKind) {s : LHState} {tr : List Emit}
    (h : Inv s tr) : Inv (fireTimer k s).1 (tr ++ (fireTimer k s).2) := by
  cases hs : s.signal with
  | none =>
      simp only [fireTimer, hs, List.append_nil]
      exact h
  | some sig =>
      cases k with
      | startT =>
          have hft : fireTimer .startT s =
              ({ s with signal := some { sig with run := true } },
               [.onStart sig.epoch sig.message sig.background]) := by
            simp [fireTimer, hs]
          rw [hft]
          refine ⟨?_, ?_, ?_, ?_, ?_⟩
          · intro sg hsg
            cases hsg
            exact h.epochLt sig hs
          · intro e b hmem
            rcases List.mem_append.mp hmem with hmem | hmem
            · obtain ⟨hlt, hne⟩ := h.endClosed e b hmem
              refine ⟨hlt, ?_⟩
              intro sg hsg
              cases hsg
              exact hne sig hs
            · simp at hmem
          · intro e
            rw [countEnd_append, countEnd_onStart]
            have := h.endOnce e
            omega
          · intro sg hsg hr
            cases hsg
            exact hasStart_append_right _ _ _
              ⟨sig.message, sig.background, by simp⟩
          · intro e b hmem
            rcases List.mem_append.mp hmem with hmem | hmem
            · exact hasStart_append_left _ _ _ (h.endStart e b hmem)
            · simp at hmem
      | endT =>
          by_cases he : sig.events.isEmpty = true
          · cases hr : sig.run with
            | true =>
                have hft : fireTimer .endT s =
                    ({ s with signal := none,
                              timers := clearTimeout sig.timeout s.timers },
                     [.onEnd sig.epoch sig.background]) := by
                  simp [fireTimer, hs, he, hr]
                rw [hft]
                refine ⟨?_, ?_, ?_, ?_, ?_⟩
                · intro sg hsg
                  exact absurd hsg (by simp)
                · intro e b hmem
                  rcases List.mem_append.mp hmem with hmem | hmem
                  · exact ⟨(h.endClosed e b hmem).1,
                      fun sg hsg => absurd hsg (by simp)⟩
                  · simp at hmem
                    refine ⟨?_, fun sg hsg => absurd hsg (by simp)⟩
                    rw [hmem.1]
                    exact h.epochLt sig hs
                · intro e
                  rw [countEnd_append]
                  by_cases hee : e = sig.epoch
                  · rw [hee]
                    have h0 : countEnd sig.epoch tr = 0 := by
                      apply countEnd_eq_zero
                      intro b' hmem'
                      exact (h.endClosed sig.epoch b' hmem').2 sig hs rfl
                    rw [h0, countEnd_onEnd_self]
                  · rw [countEnd_onEnd_ne e sig.epoch _ (by omega)]
                    have := h.endOnce e
                    omega
                · intro sg hsg
                  exact absurd hsg (by simp)
                · intro e b hmem
                  rcases List.mem_append.mp hmem with hmem | hmem
                  · exact hasStart_append_left _ _ _ (h.endStart e b hmem)
                  · simp at hmem
                    rw [hmem.1]
                    exact hasStart_append_left _ _ _ (h.runStart sig hs hr)
            | false =>
                have hft : fireTimer .endT s =
                    ({ s with signal := none,
                              timers := clearTimeout sig.timeout s.timers },
                     []) := by
                  simp [fireTimer, hs, he, hr]
                rw [hft]
                refine ⟨?_, ?_, ?_, ?_, ?_⟩
                · intro sg hsg
                  exact absurd hsg (by simp)
                · intro e b hmem
                  rw [List.append_nil] at hmem
                  exact ⟨(h.endClosed e b hmem).1,
                    fun sg hsg => absurd hsg (by simp)⟩
                · intro e
                  rw [List.append_nil]
                  exact h.endOnce e
                · intro sg hsg
                  exact absurd hsg (by simp)
                · intro e b hmem
                  rw [List.append_nil] at hmem
                  rw [List.append_nil]
                  exact h.endStart e b hmem
          · have hft : fireTimer .endT s = (s, []) := by
              simp [fireTimer, hs, he]
            rw [hft, List.append_nil]
            exact h

theorem inv_runDue (fuel : Nat) (t : Time) :
    ∀ (s : LHState) (tr : List Emit), Inv s tr →
      Inv (runDue fuel t s).1 (tr ++ (runDue fuel t s).2) := by
  induction fuel with
  | zero =>
      intro s tr h
      simpa [runDue] using h
  | succ fuel ih =>
      intro s tr h
      cases hp : pickMin (s.timers.filter fun tm => tm.fire ≤ t) with
      | none =>
          simp only [runDue, hp, List.append_nil]
          exact h
      | some tm =>
          have h0 := h.setTimers (s.timers.filter fun x => x.id ≠ tm.id)
          have h1 := inv_fireTimer tm.kind h0
          have h2 := ih _ _ h1
          simp only [runDue, hp]
          rw [← List.append_assoc]
          exact h2

theorem inv_drain (fuel : Nat) :
    ∀ (s : LHState) (tr : List Emit), Inv s tr →
      Inv (drain fuel s).1 (tr ++ (drain fuel s).2) := by
  induction fuel with
  | zero =>
      intro s tr h
      simpa [drain] using h
  | succ fuel ih =>
      intro s tr h
      cases hp : pickMin s.timers with
      | none =>
          simp only [drain, hp, List.append_nil]
          exact h
      | some tm =>
          have h0 := h.setTimers (s.timers.filter fun x => x.id ≠ tm.id)
          have h1 := inv_fireTimer tm.kind h0
          have h2 := ih _ _ h1
          simp only [drain, hp]
          rw [← List.append_assoc]
          exact h2

theorem inv_processEvent (ev : Time × LEvent) {s : LHState} {tr : List Emit}
    (h : Inv s tr) : Inv (processEvent ev s).1 (tr ++ (processEvent ev s).2) := by
  have h1 := inv_runDue s.timers.length (max s.now ev.1)
    { s with now := max s.now ev.1 } tr (h.setNow _)
  cases hev : ev.2 with
  | start m b src =>
      have h2 := inv_handleStart m b src h1
      simp only [processEvent, hev]
      exact h2
  | endE src =>
      have h2 := inv_handleEnd src h1
      simp only [processEvent, hev]
      exact h2

theorem inv_runEvents (evs : List (Time × LEvent)) :
    ∀ (s : LHState) (tr : List Emit), Inv s tr →
      Inv (runEvents evs s).1 (tr ++ (runEvents evs s).2) := by
  induction evs with
  | nil =>
      intro s tr h
      simpa [runEvents] using h
  | cons e rest ih =>
      intro s tr h
      have h1 := inv_processEvent e h
      have h2 := ih _ _ h1
      simp only [runEvents]
      rw [← List.append_assoc]
      exact h2

theorem inv_runLoad (evs : List (Time × LEvent)) :
    Inv (runLoad evs).1 (loadTrace evs) := by
  have h1 := inv_runEvents evs init [] inv_init
  have h2 := inv_drain (runEvents evs init).1.timers.length
    (runEvents evs init).1 ([] ++ (runEvents evs init).2) h1
  simp only [List.nil_append] at h2
  exact h2

theorem clearTimeout_subset (h : Option Nat) (ts : List Timer) :
    ∀ tm ∈ clearTimeout h ts, tm ∈ ts := by
  intro tm htm
  cases h with
  | none => exact htm
  | some i => exact (List.mem_filter.mp htm).1

theorem clearTimeout_mem_ne (i : Nat) (ts : List Timer) :
    ∀ tm ∈ clearTimeout (some i) ts, tm.id ≠ i := by
  intro tm htm
  have := (List.mem_filter.mp htm).2
  simpa using this

end Loading

namespace Fetching

theorem flushQueue_current (qid : Nat) (h : Handler) (a : Nat)
    (s : FQState) :
    (flushQueue qid h a s).1.current =
      if s.current = some qid then none else s.current := by
  by_cases hc : s.current = some qid <;> simp [flushQueue, hc]

theorem countLoadStart_append (xs ys : List FQEv) :
    countLoadStart (xs ++ ys) = countLoadStart xs + countLoadStart ys := by
  simp [countLoadStart, List.filter_append]

theorem countLoadEnd_append (xs ys : List FQEv) :
    countLoadEnd (xs ++ ys) = countLoadEnd xs + countLoadEnd ys := by
  simp [countLoadEnd, List.filter_append]

theorem countLoadStart_entryCalls (o : Opts) (h : Handler) (a : Nat) :
    countLoadStart (entryCalls o h a) = 0 := by
  cases h with
  | success =>
      cases hx : o.hasSuccess <;> simp [entryCalls, countLoadStart, hx]
  | error =>
      cases hx : o.hasError <;> simp [entryCalls, countLoadStart, hx]
  | complete =>
      cases hw : o.wrapped <;> cases hc : o.hasComplete <;>
        simp [entryCalls, countLoadStart, hw, hc]

theorem countLoadEnd_entryCalls_success (o : Opts) (a : Nat) :
    countLoadEnd (entryCalls o .success a) = 0 := by
  cases hx : o.hasSuccess <;> simp [entryCalls, countLoadEnd, hx]

theorem countLoadEnd_entryCalls_error (o : Opts) (a : Nat) :
    countLoadEnd (entryCalls o .error a) = 0 := by
  cases hx : o.hasError <;> simp [entryCalls, countLoadEnd, hx]

theorem countLoadEnd_entryCalls_complete (o : Opts) (a : Nat)
    (hw : o.wrapped = true) :
    countLoadEnd (entryCalls o .complete a) = 1 := by
  cases hc : o.hasComplete <;> simp [entryCalls, countLoadEnd, hw, hc]

theorem countLoadStart_fetchQueueCall (o : Opts) (s : FQState) :
    countLoadStart (fetchQueueCall o s).2 = 0 := by
  simp only [fetchQueueCall]
  split <;> simp [countLoadStart]

end Fetching

namespace Loading

theorem handleStart_timers_cases (m : Nat) (b : Bool) (src : Nat)
    {s : LHState} {sig : Signal} (hs : s.signal = some sig) :
    ∀ tm ∈ (handleStart m b src s).timers,
      tm ∈ clearTimeout sig.endTimeout s.timers ∨ tm.id = s.nextId := by
  intro tm htm
  simp only [handleStart, hs] at htm
  split at htm
  · simp only [startLoadTimeout] at htm
    rcases List.mem_append.mp htm with htm | htm
    · exact Or.inl (clearTimeout_subset _ _ tm htm)
    · simp at htm
      right
      rw [htm]
  · exact Or.inl htm

end Loading

namespace Routing

theorem runGuard_completed (g : Guard) (hc : g.completed = true) :
    ∀ (hf : Bool) (l : List (Bool × Nat × List Nat)),
      runGuard hf g l = (g, []) := by
  intro hf l
  induction l with
  | nil => rfl
  | cons hd tl ih =>
      obtain ⟨c, f, a⟩ := hd
      simp [runGuard, finalizer, hc, ih]

theorem finalizer_resolved (f : Nat) (a : List Nat) (g : Guard) (c : Bool)
    (hc : g.completed = false) (hns : (c && (g.fragment == f)) = false) :
    (finalizer true c f a g).1 =
      { g with completed := true, subscribed := false } ∧
    ∃ x, (finalizer true c f a g).2 = some x := by
  constructor
  · simp [finalizer, hc, hns]
  · simp only [finalizer, hc]
    simp only [Bool.false_eq_true, if_false, hns]
    split <;> simp

theorem runGuard_once_aux :
    ∀ (l : List (Bool × Nat × List Nat)) (g : Guard), g.completed = false →
      (runGuard true g l).2.length ≤ 1 ∧
      ((∃ i ∈ l, i.1 = false) → (runGuard true g l).2.length = 1) := by
  intro l
  induction l with
  | nil =>
      intro g hc
      refine ⟨by simp [runGuard], ?_⟩
      rintro ⟨i, hi, -⟩
      simp at hi
  | cons hd tl ih =>
      intro g hc
      obtain ⟨c, f, a⟩ := hd
      by_cases hns : (c && (g.fragment == f)) = true
      · -- canceled with unchanged fragment: ignored, state unchanged
        have hcT : c = true := by
          cases hcb : c
          · rw [hcb] at hns
            simp at hns
          · rfl
        have hsame : (g.fragment == f) = true := by
          rw [hcT] at hns
          simpa using hns
        have hp : finalizer true c f a g = (g, none) := by
          simp [finalizer, hc, hns]
        have hrec := ih g hc
        refine ⟨?_, ?_⟩
        · simp only [runGuard, hp]
          simpa using hrec.1
        · rintro ⟨i, hi, hif⟩
          rcases List.mem_cons.mp hi with hi | hi
          · rw [hi] at hif
            rw [hcT] at hif
            simp at hif
          · simp only [runGuard, hp]
            simpa using hrec.2 ⟨i, hi, hif⟩
      · -- resolves now: exactly one callback, then everything is a no-op
        have hns' : (c && (g.fragment == f)) = false := by
          cases hx : (c && (g.fragment == f))
          · rfl
          · exact absurd hx hns
        obtain ⟨hg1, x, hx⟩ := finalizer_resolved f a g c hc hns'
        have hrest := runGuard_completed (finalizer true c f a g).1
          (by rw [hg1]) true tl
        refine ⟨?_, fun _ => ?_⟩ <;>
          simp [runGuard, hx, hrest]

end Routing

/-- Claim C1: for every sequence of `load:start` / `load:end` events
delivered to one object through a handler built by `Thorax.loadHandler`,
the `onEnd` callback runs at most once per load episode, and only if the
start debounce timer fired (so `onStart` ran) during that same episode; an
end of episode with no visible start is silently absorbed with no
callback. -/
theorem loadHandler_onEnd_once_per_episode
    (evs : List (Loading.Time × Loading.LEvent)) (e : Nat) :
    Loading.countEnd e (Loading.loadTrace evs) ≤ 1 ∧
    ∀ b, Loading.Emit.onEnd e b ∈ Loading.loadTrace evs →
      Loading.hasStart e (Loading.loadTrace evs) := by
  have h := Loading.inv_runLoad evs
  exact ⟨h.endOnce e, fun b hb => h.endStart e b hb⟩

theorem loadHandler_onEnd_once_per_episode_witness :
    Loading.Emit.onEnd 0 false ∈
      Loading.loadTrace [(0, .start 0 false 1), (400, .endE 1)] ∧
    Loading.hasStart 0
      (Loading.loadTrace [(0, .start 0 false 1), (400, .endE 1)]) :=
  ⟨by decide,
   (loadHandler_onEnd_once_per_episode
      [(0, .start 0 false 1), (400, .endE 1)] 0).2 false (by decide)⟩

/-- Claim C3 as stated is false on the code: a `load:start` at t = 0
followed by `load:end` at t = 300 ms is strictly inside the 330 ms
`startDelay`, yet both callbacks run — the end debounce (100 ms) pushes
the end action to t = 400 ms, after the still-armed start timer fires at
t = 330 ms. -/
theorem fast_load_suppression_counterexample :
    300 < Loading.loadingTimeoutMs ∧
    Loading.loadTrace [(0, .start 0 false 1), (300, .endE 1)] =
      [.onStart 0 0 false, .onEnd 0 false] := by decide

set_option maxRecDepth 4000 in
/-- Claim C3 (amended): a single `load:start` followed by a `load:end`
strictly less than `startDelay - endDelay` (230 ms with the defaults)
later, with no other activity, invokes neither `onStart` nor `onEnd`: the
end-debounce timer then fires before the start timer, finds `run` unset,
clears the start timer and discards the signal. -/
theorem fast_load_fully_suppressed :
    ∀ d, d < Loading.loadingTimeoutMs - Loading.loadingEndTimeoutMs →
      Loading.loadTrace [(0, .start 0 false 1), (d, .endE 1)] = [] ∧
      Loading.loadTrace [(0, .start 0 true 1), (d, .endE 1)] = [] := by
  decide

theorem fast_load_fully_suppressed_witness :
    100 < Loading.loadingTimeoutMs - Loading.loadingEndTimeoutMs ∧
    (Loading.loadTrace [(0, .start 0 false 1), (100, .endE 1)] = [] ∧
     Loading.loadTrace [(0, .start 0 true 1), (100, .endE 1)] = []) :=
  ⟨by decide, fast_load_fully_suppressed 100 (by decide)⟩

/-- Claim C5: an episode closes only when every pending source has
signaled `load:end`.  The `end` callback can be emitted only from a state
whose signal has an empty `events` list, and the signal is discarded only
then; a `load:start` arriving while the end timer is armed removes that
timer from the queue; and in the two overlap scenarios of the claim — B
starting while A is pending, and B starting after A ended but before the
end debounce fired — no `onEnd` is emitted until B also ends, after which
exactly one `onEnd` closes the episode. -/
theorem episode_stays_open_until_all_sources_end :
    (∀ (k : Loading.TimerKind) (s : Loading.LHState),
      (∃ e b, Loading.Emit.onEnd e b ∈ (Loading.fireTimer k s).2) →
      ∃ sig, s.signal = some sig ∧ sig.events = []) ∧
    (∀ (k : Loading.TimerKind) (s : Loading.LHState) (sig : Loading.Signal),
      s.signal = some sig → (Loading.fireTimer k s).1.signal = none →
      sig.events = []) ∧
    (∀ (m : Nat) (b : Bool) (src : Nat) (s : Loading.LHState)
        (sig : Loading.Signal) (tid : Nat),
      s.signal = some sig → sig.endTimeout = some tid → tid < s.nextId →
      ∀ tm ∈ (Loading.handleStart m b src s).timers, tm.id ≠ tid) ∧
    Loading.countEnd 0 (Loading.loadTrace
      [(0, .start 0 false 1), (50, .start 1 false 2), (400, .endE 1)]) = 0 ∧
    Loading.loadTrace
      [(0, .start 0 false 1), (50, .start 1 false 2), (400, .endE 1),
       (600, .endE 2)] = [.onStart 0 1 false, .onEnd 0 false] ∧
    Loading.countEnd 0 (Loading.loadTrace
      [(0, .start 0 false 1), (400, .endE 1), (450, .start 1 false 2)]) = 0 ∧
    Loading.loadTrace
      [(0, .start 0 false 1), (400, .endE 1), (450, .start 1 false 2),
       (600, .endE 2)] = [.onStart 0 0 false, .onEnd 0 false] := by
  refine ⟨?_, ?_, ?_, by decide, by decide, by decide, by decide⟩
  · rintro k s ⟨e, b, hmem⟩
    cases hsg : s.signal with
    | none => simp [Loading.fireTimer, hsg] at hmem
    | some sig =>
        cases k with
        | startT => simp [Loading.fireTimer, hsg] at hmem
        | endT =>
            by_cases he : sig.events.isEmpty = true
            · exact ⟨sig, rfl, List.isEmpty_iff.mp he⟩
            · simp [Loading.fireTimer, hsg, he] at hmem
  · intro k s sig hsg hnone
    cases k with
    | startT => simp [Loading.fireTimer, hsg] at hnone
    | endT =>
        by_cases he : sig.events.isEmpty = true
        · exact List.isEmpty_iff.mp he
        · rw [show Loading.fireTimer .endT s = (s, []) by
            simp [Loading.fireTimer, hsg, he]] at hnone
          rw [hsg] at hnone
          simp at hnone
  · intro m b src s sig tid hsg het hlt tm htm
    rcases Loading.handleStart_timers_cases m b src hsg tm htm with hin | hid
    · rw [het] at hin
      exact Loading.clearTimeout_mem_ne tid s.timers tm hin
    · omega

theorem episode_stays_open_until_all_sources_end_witness :
    (∃ e b, Loading.Emit.onEnd e b ∈
      (Loading.fireTimer .endT
        { signal := some { events := [], timeout := none, endTimeout := none,
                           run := true, message := 0, background := false,
                           epoch := 0 },
          timers := [], nextId := 0, nextEpoch := 1, now := 0 }).2) ∧
    ∃ sig,
      ({ signal := some { events := [], timeout := none, endTimeout := none,
                          run := true, message := 0, background := false,
                          epoch := 0 },
         timers := [], nextId := 0, nextEpoch := 1, now := 0 } :
           Loading.LHState).signal = some sig ∧ sig.events = [] :=
  ⟨⟨0, false, by decide⟩,
   episode_stays_open_until_all_sources_end.1 .endT _ ⟨0, false, by decide⟩⟩

/-- Claim C6: for a `load:start` arriving while a signal exists, a
non-background call on a background signal drops the background flag and
re-arms the start timer (the source re-arm uses the hoisted, unassigned
`loadingTimeout`, hence delay NaN ≙ 0), while a call on an already
non-background signal does not re-arm the start timer: only the message is
overwritten, the armed end timer cleared and the source appended. -/
theorem existing_signal_start_rearm_policy (m src : Nat)
    (s : Loading.LHState) (sig : Loading.Signal)
    (hs : s.signal = some sig) :
    (sig.background = true →
      Loading.handleStart m false src s =
        { s with
            signal := some { sig with message := m, background := false,
                                      timeout := some s.nextId,
                                      events := sig.events ++ [src] },
            timers := Loading.clearTimeout sig.timeout
                (Loading.clearTimeout sig.endTimeout s.timers) ++
              [⟨s.nextId, s.now, .startT⟩],
            nextId := s.nextId + 1 }) ∧
    (sig.background = false → ∀ b,
      Loading.handleStart m b src s =
        { s with
            signal := some { sig with message := m,
                                      events := sig.events ++ [src] },
            timers := Loading.clearTimeout sig.endTimeout s.timers }) := by
  constructor
  · intro hb
    simp [Loading.handleStart, hs, Loading.startLoadTimeout, hb]
  · intro hb b
    simp [Loading.handleStart, hs, hb]

theorem existing_signal_start_rearm_policy_witness :
    (({ signal := some { events := [], timeout := none, endTimeout := none,
                         run := false, message := 0, background := true,
                         epoch := 0 },
        timers := [], nextId := 0, nextEpoch := 1, now := 0 } :
          Loading.LHState).signal =
      some { events := [], timeout := none, endTimeout := none, run := false,
             message := 0, background := true, epoch := 0 }) ∧
    Loading.handleStart 7 false 3
        { signal := some { events := [], timeout := none, endTimeout := none,
                           run := false, message := 0, background := true,
                           epoch := 0 },
          timers := [], nextId := 0, nextEpoch := 1, now := 0 } =
      { signal := some { events := [3], timeout := some 0, endTimeout := none,
                         run := false, message := 7, background := false,
                         epoch := 0 },
        timers := [⟨0, 0, .startT⟩], nextId := 1, nextEpoch := 1, now := 0 } :=
  ⟨rfl, by
    rw [(existing_signal_start_rearm_policy 7 3
      { signal := some { events := [], timeout := none, endTimeout := none,
                         run := false, message := 0, background := true,
                         epoch := 0 },
        timers := [], nextId := 0, nextEpoch := 1, now := 0 }
      { events := [], timeout := none, endTimeout := none, run := false,
        message := 0, background := true, epoch := 0 } rfl).1 rfl]
    rfl⟩

/-- Claim C2: two concurrent fetch calls on one object (the second
arriving while the first is in flight, neither resetting the queue) issue
exactly one underlying transport fetch for the queue epoch; on completion
every queued caller gets its success / error and complete callbacks
exactly once, with the arguments of that single fetch, in queue order; and
the queue is cleared afterwards iff it is still the same queue instance. -/
theorem fetchQueue_dedup_fanout (s0 : Fetching.FQState)
    (o1 o2 : Fetching.Opts) (ok : Bool) (args : Nat)
    (h0 : s0.current = none) (h1 : o1.resetQueue = false)
    (h2 : o2.resetQueue = false) :
    (Fetching.fetchQueueCall o1 s0).2 =
      [Fetching.FQEv.transportIssue s0.nextArr] ∧
    (Fetching.fetchQueueCall o2 (Fetching.fetchQueueCall o1 s0).1).2 = [] ∧
    (Fetching.fetchQueueCall o2
        (Fetching.fetchQueueCall o1 s0).1).1.transport =
      s0.transport ++ [s0.nextArr] ∧
    (Fetching.transportComplete s0.nextArr ok args
        (Fetching.fetchQueueCall o2 (Fetching.fetchQueueCall o1 s0).1).1).2 =
      (Fetching.entryCalls o1 (if ok then .success else .error) args ++
        Fetching.entryCalls o2 (if ok then .success else .error) args) ++
      (Fetching.entryCalls o1 .complete args ++
        Fetching.entryCalls o2 .complete args) ∧
    (Fetching.transportComplete s0.nextArr ok args
        (Fetching.fetchQueueCall o2
          (Fetching.fetchQueueCall o1 s0).1).1).1.current = none ∧
    (∀ (q : Nat) (hd : Fetching.Handler) (a : Nat) (t : Fetching.FQState),
      (Fetching.flushQueue q hd a t).1.current =
        if t.current = some q then none else t.current) := by
  refine ⟨?_, ?_, ?_, ?_, ?_, Fetching.flushQueue_current⟩ <;>
    simp [Fetching.fetchQueueCall, Fetching.transportComplete,
      Fetching.flushQueue, h0, h1, h2]

theorem fetchQueue_dedup_fanout_witness :
    ({ current := none, arrays := fun _ => [], nextArr := 0,
       transport := [] } : Fetching.FQState).current = none ∧
    ({ caller := 1, hasSuccess := true, hasError := true, hasComplete := true,
       resetQueue := false, background := false, wrapped := false } :
         Fetching.Opts).resetQueue = false ∧
    ({ caller := 2, hasSuccess := true, hasError := false,
       hasComplete := false, resetQueue := false, background := false,
       wrapped := false } : Fetching.Opts).resetQueue = false ∧
    (Fetching.fetchQueueCall
      { caller := 1, hasSuccess := true, hasError := true, hasComplete := true,
        resetQueue := false, background := false, wrapped := false }
      { current := none, arrays := fun _ => [], nextArr := 0,
        transport := [] }).2 = [Fetching.FQEv.transportIssue 0] :=
  ⟨rfl, rfl, rfl,
   (fetchQueue_dedup_fanout
     { current := none, arrays := fun _ => [], nextArr := 0, transport := [] }
     { caller := 1, hasSuccess := true, hasError := true, hasComplete := true,
       resetQueue := false, background := false, wrapped := false }
     { caller := 2, hasSuccess := true, hasError := false,
       hasComplete := false, resetQueue := false, background := false,
       wrapped := false }
     true 5 rfl rfl rfl).1⟩

/-- Claim C9: every call of the overridden `fetch` triggers exactly one
`load:start` synchronously, before the underlying fetch is issued or the
options are queued, and exactly one `load:end` runs per queued caller when
that caller's wrapped `complete` handler runs at completion — also for the
second, deduplicated call that issues no transport fetch of its own. -/
theorem fetch_loadStart_loadEnd_pairing (s0 : Fetching.FQState)
    (o1 o2 : Fetching.Opts) (args : Nat)
    (h0 : s0.current = none) (h1 : o1.resetQueue = false)
    (h2 : o2.resetQueue = false) :
    (Fetching.thoraxFetch o1 s0).2 =
      [Fetching.FQEv.loadStart o1.background,
       Fetching.FQEv.transportIssue s0.nextArr] ∧
    (Fetching.thoraxFetch o2 (Fetching.thoraxFetch o1 s0).1).2 =
      [Fetching.FQEv.loadStart o2.background] ∧
    (∀ (o : Fetching.Opts) (s : Fetching.FQState), ∃ rest,
      (Fetching.thoraxFetch o s).2 =
        Fetching.FQEv.loadStart o.background :: rest ∧
      Fetching.countLoadStart rest = 0) ∧
    Fetching.countLoadEnd
      (Fetching.transportComplete s0.nextArr true args
        (Fetching.thoraxFetch o2 (Fetching.thoraxFetch o1 s0).1).1).2 = 2 ∧
    Fetching.countLoadStart
      (Fetching.transportComplete s0.nextArr true args
        (Fetching.thoraxFetch o2 (Fetching.thoraxFetch o1 s0).1).1).2 = 0 := by
  have h3 : (Fetching.transportComplete s0.nextArr true args
      (Fetching.thoraxFetch o2 (Fetching.thoraxFetch o1 s0).1).1).2 =
      (Fetching.entryCalls { o1 with wrapped := true } .success args ++
        Fetching.entryCalls { o2 with wrapped := true } .success args) ++
      (Fetching.entryCalls { o1 with wrapped := true } .complete args ++
        Fetching.entryCalls { o2 with wrapped := true } .complete args) := by
    simp [Fetching.thoraxFetch, Fetching.fetchQueueCall,
      Fetching.transportComplete, Fetching.flushQueue, h0, h1, h2]
  refine ⟨?_, ?_, ?_, ?_, ?_⟩
  · simp [Fetching.thoraxFetch, Fetching.fetchQueueCall, h0, h1]
  · simp [Fetching.thoraxFetch, Fetching.fetchQueueCall, h0, h1, h2]
  · intro o s
    exact ⟨(Fetching.fetchQueueCall { o with wrapped := true } s).2, rfl,
      Fetching.countLoadStart_fetchQueueCall _ _⟩
  · rw [h3]
    simp [Fetching.countLoadEnd_append,
      Fetching.countLoadEnd_entryCalls_success,
      Fetching.countLoadEnd_entryCalls_complete]
  · rw [h3]
    simp [Fetching.countLoadStart_append, Fetching.countLoadStart_entryCalls]

theorem fetch_loadStart_loadEnd_pairing_witness :
    ({ current := none, arrays := fun _ => [], nextArr := 0,
       transport := [] } : Fetching.FQState).current = none ∧
    ({ caller := 1, hasSuccess := true, hasError := true, hasComplete := true,
       resetQueue := false, background := false, wrapped := false } :
         Fetching.Opts).resetQueue = false ∧
    ({ caller := 2, hasSuccess := true, hasError := false,
       hasComplete := false, resetQueue := false, background := true,
       wrapped := false } : Fetching.Opts).resetQueue = false ∧
    (Fetching.thoraxFetch
      { caller := 1, hasSuccess := true, hasError := true, hasComplete := true,
        resetQueue := false, background := false, wrapped := false }
      { current := none, arrays := fun _ => [], nextArr := 0,
        transport := [] }).2 =
      [Fetching.FQEv.loadStart false, Fetching.FQEv.transportIssue 0] :=
  ⟨rfl, rfl, rfl,
   (fetch_loadStart_loadEnd_pairing
     { current := none, arrays := fun _ => [], nextArr := 0, transport := [] }
     { caller := 1, hasSuccess := true, hasError := true, hasComplete := true,
       resetQueue := false, background := false, wrapped := false }
     { caller := 2, hasSuccess := true, hasError := false,
       hasComplete := false, resetQueue := false, background := true,
       wrapped := false }
     5 rfl rfl rfl).1⟩

/-- Claim C4: an unresolved guard ignores, without finalizing, a canceled
resolution whose current fragment equals the one captured at wrap time;
every other resolution marks the guard completed and unsubscribed and runs
the success callback iff not canceled with the fragment unchanged,
otherwise the failback (when provided) — with `isError = false` on every
navigation-cancellation path and `isError = true` on the transport error
path. -/
theorem bindToRoute_finalizer_dispatch (hf : Bool) (g : Routing.Guard)
    (cur : Nat) (a : List Nat) (hc : g.completed = false) :
    (g.fragment = cur →
      Routing.loadDataStep hf g (.routeFired cur a) = (g, none)) ∧
    (g.fragment ≠ cur →
      Routing.loadDataStep hf g (.routeFired cur a) =
        ({ g with completed := true, subscribed := false },
         if hf then some (.failback false a) else none)) ∧
    (g.fragment = cur →
      Routing.loadDataStep hf g (.fetchSuccess cur a) =
        ({ g with completed := true, subscribed := false },
         some (.success a))) ∧
    (g.fragment ≠ cur →
      Routing.loadDataStep hf g (.fetchSuccess cur a) =
        ({ g with completed := true, subscribed := false },
         if hf then some (.failback false a) else none)) ∧
    Routing.loadDataStep hf g (.fetchError a) =
      (g, if hf then some (.failback true a) else none) := by
  refine ⟨?_, ?_, ?_, ?_, rfl⟩ <;>
    intro h <;> cases hf <;>
      simp [Routing.loadDataStep, Routing.finalizer, Routing.loadDataCall,
        hc, h]

theorem bindToRoute_finalizer_dispatch_witness :
    (Routing.bindToRoute 3).completed = false ∧
    Routing.loadDataStep true (Routing.bindToRoute 3) (.routeFired 3 [9]) =
      (Routing.bindToRoute 3, none) :=
  ⟨rfl,
   (bindToRoute_finalizer_dispatch true (Routing.bindToRoute 3) 3 [9]
     rfl).1 rfl⟩

/-- Claim C7: the finalizer of a fresh guard has an at-most-once effect:
over any sequence of finalizer invocations the resolved callback runs at
most once, and any sequence containing an invocation of the returned
trigger (a non-canceled resolution) runs it exactly once; the `completed`
flag set on first resolution guards every later invocation. -/
theorem routeGuard_resolves_once (g : Routing.Guard)
    (l : List (Bool × Nat × List Nat)) (hc : g.completed = false) :
    (Routing.runGuard true g l).2.length ≤ 1 ∧
    ((∃ i ∈ l, i.1 = false) → (Routing.runGuard true g l).2.length = 1) :=
  Routing.runGuard_once_aux l g hc

theorem routeGuard_resolves_once_witness :
    (Routing.bindToRoute 0).completed = false ∧
    (∃ i ∈ [((false : Bool), (0 : Nat), ([] : List Nat)), (false, 0, [])],
      i.1 = false) ∧
    (Routing.runGuard true (Routing.bindToRoute 0)
      [(false, 0, []), (false, 0, [])]).2.length = 1 :=
  ⟨rfl, by decide,
   (routeGuard_resolves_once (Routing.bindToRoute 0)
     [(false, 0, []), (false, 0, [])] rfl).2 (by decide)⟩

/-- Claim C8: when a load is canceled by navigation (`isError = false`)
while a request handle is outstanding, the wrapper calls `abort()` on the
handle and sets `_aborted`; a genuine transport error (`isError = true`)
never calls `abort()` and leaves the object untouched. -/
theorem navigation_cancel_aborts_request (hf : Bool) (o : Syncing.DataObj)
    (r : Nat) (h : o.request = some r) :
    Syncing.loadFailWrapper hf false o =
      ({ o with aborted := true }, true, if hf then some false else none) ∧
    (∀ o2 : Syncing.DataObj, Syncing.loadFailWrapper hf true o2 =
      (o2, false, if hf then some true else none)) := by
  constructor
  · simp [Syncing.loadFailWrapper, h]
  · intro o2
    simp [Syncing.loadFailWrapper]

theorem navigation_cancel_aborts_request_witness :
    ({ request := some 5, aborted := false } : Syncing.DataObj).request =
      some 5 ∧
    Syncing.loadFailWrapper true false
        { request := some 5, aborted := false } =
      ({ request := some 5, aborted := true }, true, some false) := by
  refine ⟨rfl, ?_⟩
  have h := (navigation_cancel_aborts_request true
    { request := some 5, aborted := false } 5 rfl).1
  simpa using h

/-- Claim C10: on a populated object, `load` / `loadData` run the success
callback synchronously with the object and return at once: the fetch-layer
state is untouched, no fetch is issued or queued, no route guard is
created, no forwarding is registered and no `load:start` / `load:end` is
emitted. -/
theorem populated_load_short_circuits (o : Fetching.Opts)
    (s : Fetching.FQState) :
    LoadEntry.load true o s = (s, [], [LoadEntry.LoadAct.callbackNow]) ∧
    LoadEntry.loadData true o s = (s, [], [LoadEntry.LoadAct.callbackNow]) := by
  constructor
  · simp [LoadEntry.load, LoadEntry.loadData]
  · simp [LoadEntry.loadData]
